import Mathlib

/-!
Shallow embedding of the incremental response ingestion pipeline of the
HMBDchatbot frontend: the two `parseSSEStream` event parsers
(`src/frontend/src/utils.js` and `src/frontend/src/api.js`), the
conversation accumulator and session handling of `submitNewMessage`
(`src/frontend/src/components/Chatbot.jsx` and the unnamed variant
`src/unnamed/part_000`), the two `ChatMessages` chunk builders, and the
`createChat` fallback of `api.js`.

JavaScript strings are modelled as `List Char`; `JSON.parse` is a JavaScript
builtin external to the repository and is modelled as a deterministic
function `pj : List Char → Option J` (with `none` modelling a parse
exception), so every theorem about the parsers holds for the actual
`JSON.parse` by instantiation.
-/

namespace HMBDChat

/-- Characters removed by the JavaScript `String.prototype.trim` (ASCII
whitespace plus the no-break space). -/
def isJsWS (c : Char) : Bool :=
  c = ' ' || c = '\t' || c = '\n' || c = '\r' || c = '\x0b' || c = '\x0c' || c = '\xa0'

/-- Remove leading JavaScript whitespace. -/
def trimStartL (s : List Char) : List Char := s.dropWhile isJsWS

/-- Remove trailing JavaScript whitespace. -/
def trimEndL (s : List Char) : List Char := (s.reverse.dropWhile isJsWS).reverse

/-- Model of the JavaScript `String.prototype.trim`: remove whitespace at
both ends. -/
def jsTrim (s : List Char) : List Char := trimStartL (trimEndL s)

/-- Model of the JavaScript `String.prototype.trim` on packed strings. -/
def jsTrimS (s : String) : String := String.mk (jsTrim s.data)

/-- The characters of the record prefix `data:`. -/
def strData : List Char := ['d', 'a', 't', 'a', ':']

/-- Character list of a Lean string literal (used to write concrete inputs). -/
def strToL (s : String) : List Char := s.data

/-- Prepend a character to the first segment of a split result; helper for
the split functions below. -/
def consHead (c : Char) : List (List Char) → List (List Char)
  | [] => [[c]]
  | r :: rs => (c :: r) :: rs

/-- Model of the JavaScript `buffer.split('\n')` (api.js line 17): leftmost,
non-overlapping split on a single newline. -/
def jsSplitN : List Char → List (List Char)
  | [] => [[]]
  | c :: rest => if c = '\n' then [] :: jsSplitN rest else consHead c (jsSplitN rest)

/-- Model of the JavaScript `buffer.split('\n\n')` (utils.js line 20):
leftmost, non-overlapping split on two consecutive newlines. -/
def jsSplitNN : List Char → List (List Char)
  | [] => [[]]
  | [c] => [[c]]
  | c :: d :: rest =>
    if c = '\n' ∧ d = '\n' then [] :: jsSplitNN rest
    else consHead c (jsSplitNN (d :: rest))

/-- The value returned by `parts.pop()`: the final segment of the split. -/
def lastSeg : List (List Char) → List Char
  | [] => []
  | [x] => x
  | _ :: x :: xs => lastSeg (x :: xs)

/-- The segments remaining after `parts.pop()`: all but the final one. -/
def initSegs : List (List Char) → List (List Char)
  | [] => []
  | [_] => []
  | x :: y :: ys => x :: initSegs (y :: ys)

/-- Model of the JavaScript `Array.prototype.join('\n')` (api.js line 30). -/
def joinNL : List (List Char) → List Char
  | [] => []
  | [x] => x
  | x :: y :: ys => x ++ '\n' :: joinNL (y :: ys)

/-- State of the utils.js `parseSSEStream` generator: the residual text
buffer and `lastYieldedEvent` (the last processed payload string, null
initially). -/
structure UtilsState where
  buffer : List Char
  lastYieldedEvent : Option (List Char)
  deriving DecidableEq

/-- Model of the body of the loop over complete segments in utils.js lines
23 to 36: a segment starting with `data:` has the prefix stripped and is
trimmed; a payload equal to `lastYieldedEvent` is skipped; otherwise
`lastYieldedEvent` is updated and the JSON-parsed payload is yielded, a
parse failure being logged without a yield. Returns the updated
`lastYieldedEvent` and the yielded records. -/
def utilsProcessPart (pj : List Char → Option J) (last : Option (List Char))
    (part : List Char) : Option (List Char) × List J :=
  if strData.isPrefixOf part then
    let dataString := jsTrim (part.drop 5)
    if some dataString = last then (last, [])
    else
      match pj dataString with
      | some v => (some dataString, [v])
      | none => (some dataString, [])
  else (last, [])

/-- Iterate `utilsProcessPart` over the complete segments of one chunk. -/
def utilsProcessParts (pj : List Char → Option J) (last : Option (List Char)) :
    List (List Char) → Option (List Char) × List J
  | [] => (last, [])
  | p :: ps =>
    let r := utilsProcessPart pj last p
    let rs := utilsProcessParts pj r.1 ps
    (rs.1, r.2 ++ rs.2)

/-- Model of one iteration of the utils.js read loop (lines 19 to 36):
append the decoded chunk to the buffer, split on blank lines, retain the
final segment as the new buffer, process the complete segments. -/
def utilsStep (pj : List Char → Option J) (st : UtilsState) (chunk : List Char) :
    UtilsState × List J :=
  let parts := jsSplitNN (st.buffer ++ chunk)
  let r := utilsProcessParts pj st.lastYieldedEvent (initSegs parts)
  (⟨lastSeg parts, r.1⟩, r.2)

/-- Model of the end-of-stream flush in utils.js lines 38 to 49: the
residual buffer is processed like a complete segment (without updating
`lastYieldedEvent`, which is no longer read). -/
def utilsFlush (pj : List Char → Option J) (st : UtilsState) : List J :=
  if strData.isPrefixOf st.buffer then
    let dataString := jsTrim (st.buffer.drop 5)
    if some dataString = st.lastYieldedEvent then []
    else
      match pj dataString with
      | some v => [v]
      | none => []
  else []

/-- Initial state of the utils.js generator (lines 11 and 12). -/
def utilsInit : UtilsState := ⟨[], none⟩

/-- Feed a list of decoded chunks through the utils.js read loop. -/
def utilsFeed (pj : List Char → Option J) (st : UtilsState) :
    List (List Char) → UtilsState × List J
  | [] => (st, [])
  | c :: cs =>
    let r := utilsStep pj st c
    let rs := utilsFeed pj r.1 cs
    (rs.1, r.2 ++ rs.2)

/-- Full run of the utils.js `parseSSEStream` on a list of decoded text
chunks: the sequence of yielded records. -/
def utilsRun (pj : List Char → Option J) (chunks : List (List Char)) : List J :=
  let r := utilsFeed pj utilsInit chunks
  r.2 ++ utilsFlush pj r.1

/-- State of the api.js `parseSSEStream` generator: the residual text buffer
and the accumulated (trimmed, non-blank) lines of the current event. -/
structure ApiState where
  buffer : List Char
  eventLines : List (List Char)
  deriving DecidableEq

/-- The `dataParts` computed by api.js from the lines of one event (lines
27 to 29 and 52 to 54): keep the lines starting with `data:`, strip the
prefix and trim each. -/
def apiDataParts (eventLines : List (List Char)) : List (List Char) :=
  (eventLines.filter (fun l => strData.isPrefixOf l)).map (fun l => jsTrim (l.drop 5))

/-- Model of the api.js event flush on a blank line (lines 25 to 40): join
the data parts with newline, JSON parse; on success yield the parsed
record, on failure yield the raw payload string. -/
def apiFlushEvent (pj : List Char → Option J) (eventLines : List (List Char)) :
    List (J ⊕ List Char) :=
  match pj (joinNL (apiDataParts eventLines)) with
  | some v => [Sum.inl v]
  | none => [Sum.inr (joinNL (apiDataParts eventLines))]

/-- Model of the api.js per-line processing (lines 21 to 44): trim the line;
a blank line flushes the accumulated event (if any), any other line is
accumulated. Returns the updated `eventLines` and the yields. -/
def apiProcessLine (pj : List Char → Option J) (eventLines : List (List Char))
    (rawLine : List Char) : List (List Char) × List (J ⊕ List Char) :=
  let line := jsTrim rawLine
  if line = [] then
    if eventLines = [] then (eventLines, [])
    else ([], apiFlushEvent pj eventLines)
  else (eventLines ++ [line], [])

/-- Iterate `apiProcessLine` over the complete lines of one chunk. -/
def apiProcessLines (pj : List Char → Option J) (eventLines : List (List Char)) :
    List (List Char) → List (List Char) × List (J ⊕ List Char)
  | [] => (eventLines, [])
  | l :: ls =>
    let r := apiProcessLine pj eventLines l
    let rs := apiProcessLines pj r.1 ls
    (rs.1, r.2 ++ rs.2)

/-- Model of one iteration of the api.js read loop (lines 10 to 46). -/
def apiStep (pj : List Char → Option J) (st : ApiState) (chunk : List Char) :
    ApiState × List (J ⊕ List Char) :=
  let lines := jsSplitN (st.buffer ++ chunk)
  let r := apiProcessLines pj st.eventLines (initSegs lines)
  (⟨lastSeg lines, r.1⟩, r.2)

/-- Model of the api.js end-of-stream processing (lines 47 to 64): push the
trimmed residual buffer if non-blank, then flush the remaining event only
if it has at least one `data:` line. -/
def apiFlush (pj : List Char → Option J) (st : ApiState) : List (J ⊕ List Char) :=
  let evl := if jsTrim st.buffer = [] then st.eventLines
             else st.eventLines ++ [jsTrim st.buffer]
  if evl = [] then []
  else
    if apiDataParts evl = [] then []
    else
      match pj (joinNL (apiDataParts evl)) with
      | some v => [Sum.inl v]
      | none => [Sum.inr (joinNL (apiDataParts evl))]

/-- Initial state of the api.js generator (lines 6 and 7). -/
def apiInit : ApiState := ⟨[], []⟩

/-- Feed a list of decoded chunks through the api.js read loop. -/
def apiFeed (pj : List Char → Option J) (st : ApiState) :
    List (List Char) → ApiState × List (J ⊕ List Char)
  | [] => (st, [])
  | c :: cs =>
    let r := apiStep pj st c
    let rs := apiFeed pj r.1 cs
    (rs.1, r.2 ++ rs.2)

/-- Full run of the api.js `parseSSEStream` on a list of decoded text
chunks: the sequence of yielded items (parsed records or raw strings). -/
def apiRun (pj : List Char → Option J) (chunks : List (List Char)) :
    List (J ⊕ List Char) :=
  let r := apiFeed pj apiInit chunks
  r.2 ++ apiFlush pj r.1

/-- Concrete stand-in for `JSON.parse` on the sample payloads used in
concrete runs: the payload `1` parses to the number 1, the payload `2`
parses to 2, anything else fails. `JSON.parse` is external to the
repository; these are its actual values on these strings. -/
def samplePJ : List Char → Option Nat :=
  fun s => if s = ['1'] then some 1 else if s = ['2'] then some 2 else none

/-- An element of the `messages` React state: a user message
`(role: user, content)` or an assistant message
`(role: assistant, section, text)`, where the `section` field may be
undefined (modelled by `none`). -/
inductive ChatMsg
  | user (content : String)
  | assistant (sectionName : Option String) (text : String)
  deriving DecidableEq

/-- A parsed stream event object as consumed by `submitNewMessage`; each
field may be undefined (`none`), as when the api.js parser yields a raw
string, whose property accesses give undefined. -/
structure StreamEvent where
  sectionName : Option String
  text : Option String
  sessionId : Option String
  deriving DecidableEq

/-- JavaScript truthiness of a possibly-undefined string value: undefined
and the empty string are falsy. -/
def truthyOpt : Option String → Bool
  | none => false
  | some s => s ≠ ""

/-- Model of the `setMessages` updater of Chatbot.jsx lines 435 to 454 (and
identically part_000 lines 248 to 267): if the last message is an assistant
message whose `section` equals the event's `section`, append the event's
text (`event.text || ''`) to it; otherwise push a new assistant message. -/
def mergeEvent (msgs : List ChatMsg) (s : Option String) (t : Option String) :
    List ChatMsg :=
  match msgs.getLast? with
  | some (ChatMsg.assistant ls lt) =>
    if ls = s then msgs.dropLast ++ [ChatMsg.assistant ls (lt ++ t.getD "")]
    else msgs ++ [ChatMsg.assistant s (t.getD "")]
  | _ => msgs ++ [ChatMsg.assistant s (t.getD "")]

/-- State touched by the session-aware `submitNewMessage` of Chatbot.jsx:
the `messages` list, the `sessionId` React state (null initially) and the
`chatSessionId` entry of localStorage. -/
structure SubmitState where
  messages : List ChatMsg
  sessionId : Option String
  storedSessionId : Option String
  deriving DecidableEq

/-- Model of one iteration of the event loop of the session-aware
`submitNewMessage` (Chatbot.jsx lines 425 to 454): a `SessionUpdate` event
with a truthy `sessionId` updates and re-persists the identifier and is not
merged; an event whose text is `DONE` is skipped; any other event is merged
into `messages`. -/
def processStreamEvent (st : SubmitState) (e : StreamEvent) : SubmitState :=
  if e.sectionName = some "SessionUpdate" ∧ truthyOpt e.sessionId then
    { st with sessionId := e.sessionId, storedSessionId := e.sessionId }
  else if e.text = some "DONE" then st
  else { st with messages := mergeEvent st.messages e.sectionName e.text }

/-- Fold the event loop over a delivered event sequence. -/
def runStream (st : SubmitState) : List StreamEvent → SubmitState
  | [] => st
  | e :: es => runStream (processStreamEvent st e) es

/-- Outcome of one `api.sendChatMessage` stream: either all events are
delivered and the stream ends normally, or the listed events are delivered
and then the fetch/stream throws (a non-success response throws before any
event, i.e. `failAfter []`). -/
inductive StreamOutcome
  | ok (events : List StreamEvent)
  | failAfter (events : List StreamEvent)

/-- The visible error-marker message appended by the catch handler of
`submitNewMessage` (Chatbot.jsx lines 458 to 461, part_000 lines 271 to
274): an assistant message without a `section` field. -/
def errorMarker : ChatMsg := ChatMsg.assistant none "Error occurred"

/-- Model of the try/catch body of `submitNewMessage` after the user message
is pushed: fold the delivered events; on a stream failure, append the error
marker to whatever was accumulated. -/
def submitOutcome (st : SubmitState) : StreamOutcome → SubmitState
  | StreamOutcome.ok evs => runStream st evs
  | StreamOutcome.failAfter evs =>
    let st' := runStream st evs
    { st' with messages := st'.messages ++ [errorMarker] }

/-- Model of the session-aware `submitNewMessage` (Chatbot.jsx lines 416 to
465): guard on empty trimmed input, an in-flight request, or an unset
session identifier; otherwise push the user message and run the stream to
its outcome. The boolean records whether a query request was issued. -/
def submitNewMessage (newMessage : String) (loading : Bool) (st : SubmitState)
    (o : StreamOutcome) : SubmitState × Bool :=
  let trimmed := jsTrimS newMessage
  if trimmed = "" || loading || !truthyOpt st.sessionId then (st, false)
  else
    (submitOutcome { st with messages := st.messages ++ [ChatMsg.user trimmed] } o, true)

/-- Model of one iteration of the event loop of the part_000
`submitNewMessage` (lines 245 to 268): no session handling; an event whose
text is `DONE` is skipped; any other event is merged. -/
def processStreamEvent000 (msgs : List ChatMsg) (e : StreamEvent) : List ChatMsg :=
  if e.text = some "DONE" then msgs
  else mergeEvent msgs e.sectionName e.text

/-- Fold of the part_000 event loop. -/
def runStream000 (msgs : List ChatMsg) : List StreamEvent → List ChatMsg
  | [] => msgs
  | e :: es => runStream000 (processStreamEvent000 msgs e) es

/-- Model of the part_000 `submitNewMessage` (lines 236 to 278): guard on
empty trimmed input or an in-flight request only. -/
def submitNewMessage000 (newMessage : String) (loading : Bool)
    (msgs : List ChatMsg) (o : StreamOutcome) : List ChatMsg × Bool :=
  let trimmed := jsTrimS newMessage
  if trimmed = "" || loading then (msgs, false)
  else
    let msgs₁ := msgs ++ [ChatMsg.user trimmed]
    match o with
    | StreamOutcome.ok evs => (runStream000 msgs₁ evs, true)
    | StreamOutcome.failAfter evs => (runStream000 msgs₁ evs ++ [errorMarker], true)

/-- A chunk built by the `ChatMessages` grouping pass: one user prompt, the
assistant's non-summary (reasoning) items as formatted code blocks, and the
accumulated summary text. -/
structure MsgChunk where
  userText : String
  nonSummaryItems : List (Option String × String)
  summaryText : String
  deriving DecidableEq

/-- The code-block string built for a non-summary item (`cypher` fencing for
the `Query execution` section, `json` otherwise). -/
def codeBlockOf (s : Option String) (t : String) : String :=
  if s = some "Query execution" then "```cypher\n" ++ t ++ "\n```"
  else "```json\n" ++ t ++ "\n```"

/-- An empty chunk created on the fly when assistant messages arrive before
any user message. -/
def emptyChunk : MsgChunk := ⟨"", [], ""⟩

/-- Model of one step of the part_000 `ChatMessages` chunk builder (lines 75
to 112): a user message starts a new chunk; an assistant message with
section `Summary` appends to `summaryText`; any other assistant message is
pushed as a reasoning (non-summary) item. -/
def chunkStep000 (st : List MsgChunk × Option MsgChunk) (m : ChatMsg) :
    List MsgChunk × Option MsgChunk :=
  match m with
  | ChatMsg.user c =>
    match st.2 with
    | some cur => (st.1 ++ [cur], some ⟨c, [], ""⟩)
    | none => (st.1, some ⟨c, [], ""⟩)
  | ChatMsg.assistant s t =>
    let cur := st.2.getD emptyChunk
    if s = some "Summary" then
      (st.1, some { cur with summaryText := cur.summaryText ++ t })
    else
      (st.1, some { cur with nonSummaryItems := cur.nonSummaryItems ++ [(s, codeBlockOf s t)] })

/-- Model of the part_000 `ChatMessages` chunk builder (lines 72 to 116). -/
def buildChunks000 (msgs : List ChatMsg) : List MsgChunk :=
  let r := msgs.foldl chunkStep000 ([], none)
  match r.2 with
  | some cur => r.1 ++ [cur]
  | none => r.1

/-- Model of one step of the Chatbot.jsx `ChatMessages` chunk builder (lines
206 to 243): identical to the part_000 one except that both `Summary` and
`Answer` sections append to `summaryText`. -/
def chunkStepJsx (st : List MsgChunk × Option MsgChunk) (m : ChatMsg) :
    List MsgChunk × Option MsgChunk :=
  match m with
  | ChatMsg.user c =>
    match st.2 with
    | some cur => (st.1 ++ [cur], some ⟨c, [], ""⟩)
    | none => (st.1, some ⟨c, [], ""⟩)
  | ChatMsg.assistant s t =>
    let cur := st.2.getD emptyChunk
    if s = some "Summary" ∨ s = some "Answer" then
      (st.1, some { cur with summaryText := cur.summaryText ++ t })
    else
      (st.1, some { cur with nonSummaryItems := cur.nonSummaryItems ++ [(s, codeBlockOf s t)] })

/-- Model of the Chatbot.jsx `ChatMessages` chunk builder (lines 203 to
247). -/
def buildChunksJsx (msgs : List ChatMsg) : List MsgChunk :=
  let r := msgs.foldl chunkStepJsx ([], none)
  match r.2 with
  | some cur => r.1 ++ [cur]
  | none => r.1

/-- The JSON body of a `POST /session` response: either `response.json()`
rejects, or it yields an object whose `session_id` field may be absent. -/
inductive SessionBody
  | invalid
  | object (sessionId : Option String)

/-- Outcome of the fetch performed by `createChat`: the fetch promise
rejects (network error), or a response arrives with a status and body. -/
inductive CreateOutcome
  | fetchRejected
  | response (status : Nat) (body : SessionBody)

/-- JavaScript `Response.ok`: status in the range 200 to 299. -/
def responseOk (status : Nat) : Bool := 200 ≤ status && status ≤ 299

/-- Model of `createChat` (api.js lines 71 to 89): a non-ok status throws,
the thrown error and any fetch or json rejection are caught, and the catch
handler returns the fixed identifier `default-chat`; on success the
returned id is the `session_id` field of the body (undefined if absent).
The function is total: no error propagates to the caller. -/
def createChat : CreateOutcome → Option String
  | CreateOutcome.fetchRejected => some "default-chat"
  | CreateOutcome.response status body =>
    if responseOk status then
      match body with
      | SessionBody.invalid => some "default-chat"
      | SessionBody.object sid => sid
    else some "default-chat"

/-- The record separator of the utils.js wire format: a blank line. -/
def sepNN : List Char := ['\n', '\n']

/-- Decide that a text contains no two consecutive newlines (no utils.js
record separator); every residual buffer of the utils.js parser satisfies
this. -/
def noNN : List Char → Bool
  | [] => true
  | [_] => true
  | c :: d :: rest => !(c = '\n' && d = '\n') && noNN (d :: rest)

/-- Decide that a text contains no newline; every residual buffer of the
api.js parser satisfies this. -/
def noN (s : List Char) : Bool := s.all (fun c => !(c = '\n'))

/-- The event lines the api.js end-of-stream processing would flush after
the given chunks: the accumulated lines plus the trimmed residual buffer if
non-blank. -/
def apiFinalEventLines {J : Type} (pj : List Char → Option J)
    (chunks : List (List Char)) : List (List Char) :=
  let st := (apiFeed pj apiInit chunks).1
  if jsTrim st.buffer = [] then st.eventLines
  else st.eventLines ++ [jsTrim st.buffer]

/-! Basic lemmas about the split helpers. -/

/-- Structural induction principle stepping over one or two leading
characters, matching the recursion pattern of `jsSplitNN`. -/
theorem twoStepInduction {motive : List Char → Prop} (h0 : motive [])
    (h1 : ∀ c, motive [c])
    (h2 : ∀ c d rest, motive rest → motive (d :: rest) → motive (c :: d :: rest)) :
    ∀ l, motive l
  | [] => h0
  | [c] => h1 c
  | c :: d :: rest =>
    h2 c d rest (twoStepInduction h0 h1 h2 rest) (twoStepInduction h0 h1 h2 (d :: rest))

theorem consHead_cons (c : Char) (r : List Char) (rs : List (List Char)) :
    consHead c (r :: rs) = (c :: r) :: rs := rfl

theorem consHead_ne_nil (c : Char) (l : List (List Char)) : consHead c l ≠ [] := by
  cases l <;> simp [consHead]

theorem jsSplitN_ne_nil (s : List Char) : jsSplitN s ≠ [] := by
  cases s with
  | nil => simp [jsSplitN]
  | cons c rest =>
    simp only [jsSplitN]
    split
    · simp
    · exact consHead_ne_nil _ _

theorem jsSplitNN_ne_nil (s : List Char) : jsSplitNN s ≠ [] := by
  match s with
  | [] => simp [jsSplitNN]
  | [c] => simp [jsSplitNN]
  | c :: d :: rest =>
    simp only [jsSplitNN]
    split
    · simp
    · exact consHead_ne_nil _ _

theorem initSegs_cons_of_ne_nil (x : List Char) {l : List (List Char)} (h : l ≠ []) :
    initSegs (x :: l) = x :: initSegs l := by
  cases l with
  | nil => exact absurd rfl h
  | cons y ys => rfl

theorem lastSeg_cons_of_ne_nil (x : List Char) {l : List (List Char)} (h : l ≠ []) :
    lastSeg (x :: l) = lastSeg l := by
  cases l with
  | nil => exact absurd rfl h
  | cons y ys => rfl

theorem initSegs_append {X Q : List (List Char)} (h : Q ≠ []) :
    initSegs (X ++ Q) = X ++ initSegs Q := by
  induction X with
  | nil => rfl
  | cons x X ih =>
    rw [List.cons_append, initSegs_cons_of_ne_nil x (by simp [h]), ih, List.cons_append]

theorem lastSeg_append {X Q : List (List Char)} (h : Q ≠ []) :
    lastSeg (X ++ Q) = lastSeg Q := by
  induction X with
  | nil => rfl
  | cons x X ih =>
    rw [List.cons_append, lastSeg_cons_of_ne_nil x (by simp [h]), ih]

theorem exists_cons_of_ne_nil {l : List (List Char)} (h : l ≠ []) :
    ∃ r rs, l = r :: rs := by
  cases l with
  | nil => exact absurd rfl h
  | cons r rs => exact ⟨r, rs, rfl⟩

theorem jsSplitN_eq_singleton {a r : List Char} (h : jsSplitN a = [r]) : r = a := by
  induction a generalizing r with
  | nil => simpa [jsSplitN] using h.symm
  | cons c rest ih =>
    simp only [jsSplitN] at h
    split at h
    · obtain ⟨r', rs', hsp⟩ := exists_cons_of_ne_nil (jsSplitN_ne_nil rest)
      rw [hsp] at h
      simp at h
    · obtain ⟨r', rs', hsp⟩ := exists_cons_of_ne_nil (jsSplitN_ne_nil rest)
      rw [hsp, consHead_cons] at h
      obtain ⟨h1, h2⟩ := List.cons.injEq .. ▸ h
      rw [← h1]
      exact congrArg (List.cons c) (ih (by rw [hsp, h2]))

theorem jsSplitNN_eq_singleton {a r : List Char} (h : jsSplitNN a = [r]) : r = a := by
  induction a using twoStepInduction generalizing r with
  | h0 => simpa [jsSplitNN] using h.symm
  | h1 c => simpa [jsSplitNN] using h.symm
  | h2 c d rest ih ih2 =>
    simp only [jsSplitNN] at h
    split at h
    · obtain ⟨r', rs', hsp⟩ := exists_cons_of_ne_nil (jsSplitNN_ne_nil rest)
      rw [hsp] at h
      simp at h
    · obtain ⟨r', rs', hsp⟩ := exists_cons_of_ne_nil (jsSplitNN_ne_nil (d :: rest))
      rw [hsp, consHead_cons] at h
      obtain ⟨h1, h2⟩ := List.cons.injEq .. ▸ h
      rw [← h1]
      exact congrArg (List.cons c) (ih2 (by rw [hsp, h2]))

/-! The key splitting lemmas: splitting an appended text equals completing
the previous final segment. They express that the leftmost greedy split is
insensitive to where the text was cut. -/

theorem jsSplitN_append (a b : List Char) :
    jsSplitN (a ++ b) =
      initSegs (jsSplitN a) ++ jsSplitN (lastSeg (jsSplitN a) ++ b) := by
  induction a with
  | nil => simp [jsSplitN, initSegs, lastSeg]
  | cons c rest ih =>
    by_cases hc : c = '\n'
    · simp only [List.cons_append, jsSplitN, if_pos hc, List.append_eq]
      rw [ih, initSegs_cons_of_ne_nil _ (jsSplitN_ne_nil rest),
        lastSeg_cons_of_ne_nil _ (jsSplitN_ne_nil rest), List.cons_append]
    · simp only [List.cons_append, jsSplitN, if_neg hc, List.append_eq]
      obtain ⟨r, rs, hsp⟩ := exists_cons_of_ne_nil (jsSplitN_ne_nil rest)
      cases rs with
      | nil =>
        have hr : r = rest := jsSplitN_eq_singleton hsp
        rw [hsp, consHead_cons]
        simp only [initSegs, lastSeg, hr, List.nil_append, List.cons_append]
        simp [jsSplitN, if_neg hc]
      | cons s ss =>
        rw [ih, hsp, consHead_cons]
        simp [initSegs_cons_of_ne_nil, lastSeg_cons_of_ne_nil, consHead_cons]

theorem jsSplitNN_append (a b : List Char) :
    jsSplitNN (a ++ b) =
      initSegs (jsSplitNN a) ++ jsSplitNN (lastSeg (jsSplitNN a) ++ b) := by
  induction a using twoStepInduction with
  | h0 => simp [jsSplitNN, initSegs, lastSeg]
  | h1 c => simp [jsSplitNN, initSegs, lastSeg]
  | h2 c d rest ih ih2 =>
    by_cases hcd : c = '\n' ∧ d = '\n'
    · simp only [List.cons_append, jsSplitNN, if_pos hcd, List.append_eq]
      rw [ih, initSegs_cons_of_ne_nil _ (jsSplitNN_ne_nil rest),
        lastSeg_cons_of_ne_nil _ (jsSplitNN_ne_nil rest), List.cons_append]
    · simp only [List.cons_append, jsSplitNN, if_neg hcd, List.append_eq]
      obtain ⟨r, rs, hsp⟩ := exists_cons_of_ne_nil (jsSplitNN_ne_nil (d :: rest))
      cases rs with
      | nil =>
        have hr : r = d :: rest := jsSplitNN_eq_singleton hsp
        rw [hsp, consHead_cons]
        simp only [initSegs, lastSeg, hr, List.nil_append, List.cons_append]
        simp [jsSplitNN, if_neg hcd]
      | cons s ss =>
        have ih2' : jsSplitNN (d :: (rest ++ b)) =
            initSegs (jsSplitNN (d :: rest)) ++
              jsSplitNN (lastSeg (jsSplitNN (d :: rest)) ++ b) := by
          simpa using ih2
        rw [ih2', hsp, consHead_cons]
        simp [initSegs_cons_of_ne_nil, lastSeg_cons_of_ne_nil, consHead_cons]

/-! Composition lemmas: processing the segments of two texts in sequence
equals processing the segments of their concatenation. -/

theorem utilsProcessParts_append {J : Type} (pj : List Char → Option J)
    (last : Option (List Char)) (ps qs : List (List Char)) :
    utilsProcessParts pj last (ps ++ qs) =
      ((utilsProcessParts pj (utilsProcessParts pj last ps).1 qs).1,
       (utilsProcessParts pj last ps).2 ++
         (utilsProcessParts pj (utilsProcessParts pj last ps).1 qs).2) := by
  induction ps generalizing last with
  | nil => simp [utilsProcessParts]
  | cons p ps ih => simp [utilsProcessParts, ih, List.append_assoc]

theorem apiProcessLines_append {J : Type} (pj : List Char → Option J)
    (ev : List (List Char)) (ps qs : List (List Char)) :
    apiProcessLines pj ev (ps ++ qs) =
      ((apiProcessLines pj (apiProcessLines pj ev ps).1 qs).1,
       (apiProcessLines pj ev ps).2 ++
         (apiProcessLines pj (apiProcessLines pj ev ps).1 qs).2) := by
  induction ps generalizing ev with
  | nil => simp [apiProcessLines]
  | cons p ps ih => simp [apiProcessLines, ih, List.append_assoc]

theorem utilsStep_append {J : Type} (pj : List Char → Option J) (st : UtilsState)
    (a b : List Char) :
    utilsStep pj st (a ++ b) =
      ((utilsStep pj (utilsStep pj st a).1 b).1,
       (utilsStep pj st a).2 ++ (utilsStep pj (utilsStep pj st a).1 b).2) := by
  simp only [utilsStep]
  rw [← List.append_assoc, jsSplitNN_append (st.buffer ++ a) b,
    initSegs_append (jsSplitNN_ne_nil _), lastSeg_append (jsSplitNN_ne_nil _),
    utilsProcessParts_append]

theorem apiStep_append {J : Type} (pj : List Char → Option J) (st : ApiState)
    (a b : List Char) :
    apiStep pj st (a ++ b) =
      ((apiStep pj (apiStep pj st a).1 b).1,
       (apiStep pj st a).2 ++ (apiStep pj (apiStep pj st a).1 b).2) := by
  simp only [apiStep]
  rw [← List.append_assoc, jsSplitN_append (st.buffer ++ a) b,
    initSegs_append (jsSplitN_ne_nil _), lastSeg_append (jsSplitN_ne_nil _),
    apiProcessLines_append]

theorem utilsFeed_cons {J : Type} (pj : List Char → Option J) (st : UtilsState)
    (c : List Char) (cs : List (List Char)) :
    utilsFeed pj st (c :: cs) =
      ((utilsFeed pj (utilsStep pj st c).1 cs).1,
       (utilsStep pj st c).2 ++ (utilsFeed pj (utilsStep pj st c).1 cs).2) := rfl

theorem apiFeed_cons {J : Type} (pj : List Char → Option J) (st : ApiState)
    (c : List Char) (cs : List (List Char)) :
    apiFeed pj st (c :: cs) =
      ((apiFeed pj (apiStep pj st c).1 cs).1,
       (apiStep pj st c).2 ++ (apiFeed pj (apiStep pj st c).1 cs).2) := rfl

theorem utilsFeed_eq_step_join {J : Type} (pj : List Char → Option J)
    (cs : List (List Char)) (st : UtilsState) (c : List Char) :
    utilsFeed pj st (c :: cs) = utilsStep pj st (c ++ cs.flatten) := by
  induction cs generalizing st c with
  | nil => simp [utilsFeed]
  | cons c' cs ih =>
    rw [utilsFeed_cons, ih, ← utilsStep_append, List.flatten_cons]

theorem apiFeed_eq_step_join {J : Type} (pj : List Char → Option J)
    (cs : List (List Char)) (st : ApiState) (c : List Char) :
    apiFeed pj st (c :: cs) = apiStep pj st (c ++ cs.flatten) := by
  induction cs generalizing st c with
  | nil => simp [apiFeed]
  | cons c' cs ih =>
    rw [apiFeed_cons, ih, ← apiStep_append, List.flatten_cons]

/-- C3: for any wire-format text and every way of splitting it into
arbitrary-sized fragments fed to `parseSSEStream` one at a time, the
sequence of yielded records is identical to the sequence produced when the
whole text arrives as a single fragment — for both the utils.js and the
api.js variant of the parser, and for every JSON parse function. -/
theorem claim_C3_chunk_invariance (J : Type) (pj : List Char → Option J)
    (chunks : List (List Char)) :
    utilsRun pj chunks = utilsRun pj [chunks.flatten] ∧
      apiRun pj chunks = apiRun pj [chunks.flatten] := by
  constructor
  · cases chunks with
    | nil =>
      simp [utilsRun, utilsFeed, utilsStep, utilsInit, jsSplitNN, initSegs,
        lastSeg, utilsProcessParts]
    | cons c cs =>
      show utilsRun pj (c :: cs) = utilsRun pj [(c :: cs).flatten]
      rw [utilsRun, utilsRun, utilsFeed_eq_step_join, utilsFeed_eq_step_join,
        List.flatten_cons]
      simp
  · cases chunks with
    | nil =>
      simp [apiRun, apiFeed, apiStep, apiInit, jsSplitN, initSegs,
        lastSeg, apiProcessLines]
    | cons c cs =>
      show apiRun pj (c :: cs) = apiRun pj [(c :: cs).flatten]
      rw [apiRun, apiRun, apiFeed_eq_step_join, apiFeed_eq_step_join,
        List.flatten_cons]
      simp

/-! Claims about the conversation accumulator, the session handling and the
session bootstrap. -/

/-- C4: when the accumulator folds an event into the message list, an event
whose section equals the last assistant entry's section appends its text to
that entry, any event that does not match the last entry is pushed as a new
entry, and the three records A:x, A:y, B:z folded into an empty turn yield
exactly the two entries A:xy and B:z. -/
theorem claim_C4_merge_rule :
    (∀ (msgs : List ChatMsg) (lt : String) (s t : Option String),
       msgs.getLast? = some (ChatMsg.assistant s lt) →
         mergeEvent msgs s t = msgs.dropLast ++ [ChatMsg.assistant s (lt ++ t.getD "")]) ∧
    (∀ (msgs : List ChatMsg) (s t : Option String),
       (∀ lt, msgs.getLast? ≠ some (ChatMsg.assistant s lt)) →
         mergeEvent msgs s t = msgs ++ [ChatMsg.assistant s (t.getD "")]) ∧
    runStream000 []
        [⟨some "A", some "x", none⟩, ⟨some "A", some "y", none⟩, ⟨some "B", some "z", none⟩] =
      [ChatMsg.assistant (some "A") "xy", ChatMsg.assistant (some "B") "z"] := by
  refine ⟨?_, ?_, by decide⟩
  · intro msgs lt s t hlast
    unfold mergeEvent
    rw [hlast]
    simp
  · intro msgs s t hno
    unfold mergeEvent
    cases hm : msgs.getLast? with
    | none => rfl
    | some m =>
      cases m with
      | user c => rfl
      | assistant ls lt =>
        have hne : ls ≠ s := by
          intro heq
          exact hno lt (by rw [hm, heq])
        simp [hne]

/-- Witness for C4 at concrete inputs: an event matching the last entry's
section appends, a non-matching event pushes a new entry. -/
theorem claim_C4_witness :
    mergeEvent [ChatMsg.user "q", ChatMsg.assistant (some "A") "x"] (some "A") (some "y") =
        [ChatMsg.user "q", ChatMsg.assistant (some "A") "xy"] ∧
      mergeEvent [ChatMsg.assistant (some "A") "x"] (some "B") (some "z") =
        [ChatMsg.assistant (some "A") "x", ChatMsg.assistant (some "B") "z"] := by
  constructor
  · have h := claim_C4_merge_rule.1 [ChatMsg.user "q", ChatMsg.assistant (some "A") "x"]
      "x" (some "A") (some "y") rfl
    simpa using h
  · have h := claim_C4_merge_rule.2.1 [ChatMsg.assistant (some "A") "x"]
      (some "B") (some "z") (by intro lt h; simp at h)
    simpa using h

/-- C7: a mid-stream event with section `SessionUpdate` carrying a (truthy)
session identifier updates the in-memory identifier and re-persists it,
and leaves the accumulated message list completely unchanged. -/
theorem claim_C7_session_update (st : SubmitState) (e : StreamEvent) (sid : String)
    (hs : e.sectionName = some "SessionUpdate") (hid : e.sessionId = some sid)
    (hne : sid ≠ "") :
    processStreamEvent st e =
      { messages := st.messages, sessionId := some sid, storedSessionId := some sid } := by
  unfold processStreamEvent
  rw [if_pos ⟨hs, by rw [hid]; simpa [truthyOpt] using hne⟩, hid]

/-- Witness for C7 at a concrete state and event. -/
theorem claim_C7_witness :
    processStreamEvent
        ⟨[ChatMsg.user "q", ChatMsg.assistant (some "A") "x"], some "old", some "old"⟩
        ⟨some "SessionUpdate", none, some "new"⟩ =
      { messages := [ChatMsg.user "q", ChatMsg.assistant (some "A") "x"],
        sessionId := some "new", storedSessionId := some "new" } :=
  claim_C7_session_update
    ⟨[ChatMsg.user "q", ChatMsg.assistant (some "A") "x"], some "old", some "old"⟩
    ⟨some "SessionUpdate", none, some "new"⟩ "new" rfl rfl (by decide)

/-- C8: when the stream fails after delivering a prefix of events, the
message list produced by `submitNewMessage` is exactly the accumulated
content for that prefix with the visible error marker appended after it;
nothing accumulated is dropped. -/
theorem claim_C8_transport_failure (newMessage : String) (st : SubmitState)
    (evs : List StreamEvent) (hmsg : ¬jsTrimS newMessage = "")
    (hsid : truthyOpt st.sessionId = true) :
    (submitNewMessage newMessage false st (StreamOutcome.failAfter evs)).1.messages =
      (runStream { st with messages := st.messages ++ [ChatMsg.user (jsTrimS newMessage)] }
          evs).messages ++ [errorMarker] := by
  simp [submitNewMessage, submitOutcome, hmsg, hsid]

/-- Witness for C8: a concrete failing stream after one delivered event
keeps the accumulated entry and appends the error marker. -/
theorem claim_C8_witness :
    (submitNewMessage "hi" false ⟨[], some "s1", some "s1"⟩
        (StreamOutcome.failAfter [⟨some "A", some "x", none⟩])).1.messages =
      (runStream ⟨[ChatMsg.user "hi"], some "s1", some "s1"⟩
          [⟨some "A", some "x", none⟩]).messages ++ [errorMarker] :=
  claim_C8_transport_failure "hi" ⟨[], some "s1", some "s1"⟩
    [⟨some "A", some "x", none⟩] (by decide) (by decide)

/-- C9: `createChat` is total (no error propagates to its caller) and on
every failure outcome — a rejected fetch, a non-success status, an
unparsable body — it returns the fixed default identifier `default-chat`;
on a clean success it returns the `session_id` field of the body. -/
theorem claim_C9_createChat_fallback :
    createChat CreateOutcome.fetchRejected = some "default-chat" ∧
    (∀ (status : Nat) (body : SessionBody), responseOk status = false →
       createChat (CreateOutcome.response status body) = some "default-chat") ∧
    (∀ status : Nat, responseOk status = true →
       createChat (CreateOutcome.response status SessionBody.invalid) = some "default-chat") ∧
    (∀ (status : Nat) (sid : Option String), responseOk status = true →
       createChat (CreateOutcome.response status (SessionBody.object sid)) = sid) := by
  refine ⟨rfl, ?_, ?_, ?_⟩ <;> intros <;> simp [createChat, *]

/-- Witness for C9 at concrete outcomes: a 500 response and a 404 response
fall back to `default-chat`, a 200 response with a session id returns it. -/
theorem claim_C9_witness :
    createChat (CreateOutcome.response 500 (SessionBody.object (some "x"))) =
        some "default-chat" ∧
      createChat (CreateOutcome.response 200 SessionBody.invalid) = some "default-chat" ∧
      createChat (CreateOutcome.response 200 (SessionBody.object (some "abc"))) = some "abc" :=
  ⟨claim_C9_createChat_fallback.2.1 500 (SessionBody.object (some "x")) (by decide),
   claim_C9_createChat_fallback.2.2.1 200 (by decide),
   claim_C9_createChat_fallback.2.2.2 200 (some "abc") (by decide)⟩

/-- C10: `submitNewMessage` is a no-op — state returned unchanged and no
query request issued — whenever the input trims to the empty string, a
response is already streaming, or (in the session-aware variant) the
session identifier is not set; likewise for the part_000 variant's two
guards. -/
theorem claim_C10_submit_guards :
    (∀ (msg : String) (st : SubmitState) (o : StreamOutcome), jsTrimS msg = "" →
       submitNewMessage msg false st o = (st, false)) ∧
    (∀ (msg : String) (st : SubmitState) (o : StreamOutcome),
       submitNewMessage msg true st o = (st, false)) ∧
    (∀ (msg : String) (st : SubmitState) (o : StreamOutcome),
       truthyOpt st.sessionId = false → submitNewMessage msg false st o = (st, false)) ∧
    (∀ (msg : String) (msgs : List ChatMsg) (o : StreamOutcome), jsTrimS msg = "" →
       submitNewMessage000 msg false msgs o = (msgs, false)) ∧
    (∀ (msg : String) (msgs : List ChatMsg) (o : StreamOutcome),
       submitNewMessage000 msg true msgs o = (msgs, false)) := by
  refine ⟨?_, ?_, ?_, ?_, ?_⟩ <;> intros <;>
    simp [submitNewMessage, submitNewMessage000, *]

/-- Witness for C10 at concrete states: whitespace-only input, an in-flight
request, and an unset session identifier each leave the state unchanged
without issuing a request. -/
theorem claim_C10_witness :
    submitNewMessage "  " false ⟨[], some "s", some "s"⟩ (StreamOutcome.ok []) =
        (⟨[], some "s", some "s"⟩, false) ∧
      submitNewMessage "hi" true ⟨[], some "s", some "s"⟩ (StreamOutcome.ok []) =
        (⟨[], some "s", some "s"⟩, false) ∧
      submitNewMessage "hi" false ⟨[], none, none⟩ (StreamOutcome.ok []) =
        (⟨[], none, none⟩, false) ∧
      submitNewMessage000 "  " false [] (StreamOutcome.ok []) = ([], false) ∧
      submitNewMessage000 "hi" true [] (StreamOutcome.ok []) = ([], false) :=
  ⟨claim_C10_submit_guards.1 "  " ⟨[], some "s", some "s"⟩ (StreamOutcome.ok []) (by decide),
   claim_C10_submit_guards.2.1 "hi" ⟨[], some "s", some "s"⟩ (StreamOutcome.ok []),
   claim_C10_submit_guards.2.2.1 "hi" ⟨[], none, none⟩ (StreamOutcome.ok []) (by decide),
   claim_C10_submit_guards.2.2.2.1 "  " [] (StreamOutcome.ok []) (by decide),
   claim_C10_submit_guards.2.2.2.2 "hi" [] (StreamOutcome.ok [])⟩

/-- C2 counterexample: in the part_000 `ChatMessages` accumulator an
assistant event labelled `Answer` is NOT treated as the final-answer
marker: folding it into an empty turn leaves `summaryText` empty and
creates a separate reasoning (non-summary) entry, contradicting the claim
that both `Summary` and `Answer` never create separate reasoning
entries. -/
theorem claim_C2_counterexample :
    buildChunks000 [ChatMsg.assistant (some "Answer") "x"] =
      [⟨"", [(some "Answer", "```json\nx\n```")], ""⟩] := by
  decide

/-- C2 amended: in the Chatbot.jsx `ChatMessages` accumulator both
`Summary` and `Answer` labels are treated as the final-answer marker — the
event's text is concatenated into `summaryText` and no reasoning entry is
created; in the part_000 variant only `Summary` is, and an `Answer` event
there pushes a reasoning entry instead. -/
theorem claim_C2_final_answer_labels :
    (∀ (cks : List MsgChunk) (cur : MsgChunk) (s : Option String) (t : String),
       s = some "Summary" ∨ s = some "Answer" →
         chunkStepJsx (cks, some cur) (ChatMsg.assistant s t) =
           (cks, some { cur with summaryText := cur.summaryText ++ t })) ∧
    (∀ (cks : List MsgChunk) (cur : MsgChunk) (t : String),
       chunkStep000 (cks, some cur) (ChatMsg.assistant (some "Summary") t) =
         (cks, some { cur with summaryText := cur.summaryText ++ t })) ∧
    (∀ (cks : List MsgChunk) (cur : MsgChunk) (t : String),
       chunkStep000 (cks, some cur) (ChatMsg.assistant (some "Answer") t) =
         (cks, some { cur with nonSummaryItems :=
           cur.nonSummaryItems ++ [(some "Answer", codeBlockOf (some "Answer") t)] })) := by
  refine ⟨?_, ?_, ?_⟩
  · intro cks cur s t hs
    rcases hs with h | h <;> simp [chunkStepJsx, h]
  · intro cks cur t
    simp [chunkStep000]
  · intro cks cur t
    simp [chunkStep000]

/-- Witness for the amended C2 at concrete chunks and events. -/
theorem claim_C2_witness :
    chunkStepJsx ([], some ⟨"q", [], "s"⟩) (ChatMsg.assistant (some "Answer") "x") =
        ([], some ⟨"q", [], "sx"⟩) ∧
      chunkStep000 ([], some ⟨"q", [], "s"⟩) (ChatMsg.assistant (some "Summary") "x") =
        ([], some ⟨"q", [], "sx"⟩) := by
  constructor
  · have h := claim_C2_final_answer_labels.1 [] ⟨"q", [], "s"⟩ (some "Answer") "x"
      (Or.inr rfl)
    simpa using h
  · have h := claim_C2_final_answer_labels.2.1 [] ⟨"q", [], "s"⟩ "x"
    simpa using h

/-! Claims about deduplication and malformed-payload recovery. -/

/-- The `lastYieldedEvent` after processing a `data:`-prefixed segment is
always that segment's payload string, whether the segment was skipped as a
duplicate, parsed, or failed to parse. -/
theorem utilsProcessPart_fst {J : Type} (pj : List Char → Option J)
    (last : Option (List Char)) (p : List Char) (hp : strData.isPrefixOf p) :
    (utilsProcessPart pj last p).1 = some (jsTrim (p.drop 5)) := by
  unfold utilsProcessPart
  rw [if_pos hp]
  by_cases hd : some (jsTrim (p.drop 5)) = last
  · rw [if_pos hd, ← hd]
  · rw [if_neg hd]
    cases pj (jsTrim (p.drop 5)) <;> rfl

/-- C1 counterexample: the api.js `parseSSEStream` performs no
deduplication: two consecutive records with the identical raw payload `1`
yield two EventRecords, not one. -/
theorem claim_C1_counterexample :
    apiRun samplePJ [strToL "data: 1\n\ndata: 1\n\n"] = [Sum.inl 1, Sum.inl 1] := by
  decide

/-- C1 amended: in the utils.js `parseSSEStream` a complete record whose
raw payload string equals the immediately preceding processed payload
string is suppressed — it yields nothing and leaves the parser state
unchanged — so two consecutive identical raw payloads yield exactly one
EventRecord there (concretely, two identical `1` records yield one); the
api.js variant performs no deduplication. -/
theorem claim_C1_dedup :
    (∀ (J : Type) (pj : List Char → Option J) (last : Option (List Char))
       (p₁ p₂ : List Char) (ps : List (List Char)),
       strData.isPrefixOf p₁ → strData.isPrefixOf p₂ →
       jsTrim (p₁.drop 5) = jsTrim (p₂.drop 5) →
       utilsProcessParts pj last (p₁ :: p₂ :: ps) =
         utilsProcessParts pj last (p₁ :: ps)) ∧
    utilsRun samplePJ [strToL "data: 1\n\ndata: 1\n\n"] = [1] := by
  refine ⟨?_, by decide⟩
  intro J pj last p₁ p₂ ps h1 h2 heq
  have hskip : utilsProcessPart pj (utilsProcessPart pj last p₁).1 p₂ =
      ((utilsProcessPart pj last p₁).1, []) := by
    rw [utilsProcessPart_fst pj last p₁ h1]
    unfold utilsProcessPart
    rw [if_pos h2]
    rw [if_pos (by rw [heq])]
  simp only [utilsProcessParts]
  rw [hskip]
  simp

/-- Witness for the amended C1: a concrete duplicated record is suppressed
at the segment level. -/
theorem claim_C1_witness :
    utilsProcessParts samplePJ none
        [strToL "data: 1", strToL "data: 1", strToL "data: 2"] =
      utilsProcessParts samplePJ none [strToL "data: 1", strToL "data: 2"] :=
  claim_C1_dedup.1 Nat samplePJ none (strToL "data: 1") (strToL "data: 1")
    [strToL "data: 2"] (by decide) (by decide) (by decide)

/-- C5: a malformed (non-JSON) payload never aborts either parser (both are
total functions of the input), and a malformed record followed by a valid
record still yields the valid record: in utils.js the malformed segment
yields nothing and the following valid segment is parsed and yielded; in
api.js the blank line after any non-empty event always flushes it as
exactly one item — the raw string when the parse fails, the parsed record
when it succeeds — and processing continues with a clean state; the spec's
end-to-end scenario holds in both variants. -/
theorem claim_C5_malformed_recovery :
    (∀ (J : Type) (pj : List Char → Option J) (last : Option (List Char))
       (bad good : List Char) (ps : List (List Char)) (v : J),
       strData.isPrefixOf bad → strData.isPrefixOf good →
       pj (jsTrim (bad.drop 5)) = none → pj (jsTrim (good.drop 5)) = some v →
       utilsProcessParts pj last (bad :: good :: ps) =
         ((utilsProcessParts pj (some (jsTrim (good.drop 5))) ps).1,
          v :: (utilsProcessParts pj (some (jsTrim (good.drop 5))) ps).2)) ∧
    (∀ (J : Type) (pj : List Char → Option J) (ev : List (List Char))
       (ls : List (List Char)), ev ≠ [] →
       apiProcessLines pj ev ([] :: ls) =
         ((apiProcessLines pj [] ls).1,
          apiFlushEvent pj ev ++ (apiProcessLines pj [] ls).2)) ∧
    (∀ (J : Type) (pj : List Char → Option J) (ev : List (List Char)),
       pj (joinNL (apiDataParts ev)) = none →
       apiFlushEvent pj ev = [Sum.inr (joinNL (apiDataParts ev))]) ∧
    (∀ (J : Type) (pj : List Char → Option J) (ev : List (List Char)) (v : J),
       pj (joinNL (apiDataParts ev)) = some v →
       apiFlushEvent pj ev = [Sum.inl v]) ∧
    utilsRun samplePJ [strToL "data: not-json\n\ndata: 1\n\n"] = [1] ∧
    apiRun samplePJ [strToL "data: not-json\n\ndata: 1\n\n"] =
      [Sum.inr (strToL "not-json"), Sum.inl 1] := by
  refine ⟨?_, ?_, ?_, ?_, by decide, by decide⟩
  · intro J pj last bad good ps v hbad hgood hpbad hpgood
    have hsnd : (utilsProcessPart pj last bad).2 = [] := by
      unfold utilsProcessPart
      rw [if_pos hbad]
      by_cases hd : some (jsTrim (bad.drop 5)) = last
      · rw [if_pos hd]
      · rw [if_neg hd, hpbad]
    have hgoodstep : utilsProcessPart pj (utilsProcessPart pj last bad).1 good =
        (some (jsTrim (good.drop 5)), [v]) := by
      rw [utilsProcessPart_fst pj last bad hbad]
      unfold utilsProcessPart
      rw [if_pos hgood]
      have hne : ¬some (jsTrim (good.drop 5)) = some (jsTrim (bad.drop 5)) := by
        intro h
        rw [Option.some_inj] at h
        rw [h, hpbad] at hpgood
        cases hpgood
      rw [if_neg hne, hpgood]
    simp only [utilsProcessParts]
    rw [hgoodstep, hsnd]
    simp
  · intro J pj ev ls hev
    have hline : apiProcessLine pj ev [] = ([], apiFlushEvent pj ev) := by
      unfold apiProcessLine
      have hj : jsTrim ([] : List Char) = [] := rfl
      simp [hj, hev]
    simp only [apiProcessLines]
    rw [hline]
  · intro J pj ev hp
    unfold apiFlushEvent
    rw [hp]
  · intro J pj ev v hp
    unfold apiFlushEvent
    rw [hp]

/-- Witness for C5: concrete malformed-then-valid inputs, at the segment
level for utils.js and at the event level for api.js. -/
theorem claim_C5_witness :
    utilsProcessParts samplePJ none [strToL "data: nope", strToL "data: 1"] =
        (some (strToL "1"), [1]) ∧
      apiProcessLines samplePJ [strToL "data: nope"] [[]] =
        (([] : List (List Char)), [Sum.inr (strToL "nope")]) ∧
      apiFlushEvent samplePJ [strToL "data: 1"] = [Sum.inl 1] := by
  refine ⟨?_, ?_, ?_⟩
  · have h := claim_C5_malformed_recovery.1 Nat samplePJ none (strToL "data: nope")
      (strToL "data: 1") [] 1 (by decide) (by decide) (by decide) (by decide)
    exact h.trans (by decide)
  · have h := claim_C5_malformed_recovery.2.1 Nat samplePJ [strToL "data: nope"] []
      (by decide)
    exact h.trans (by decide)
  · exact claim_C5_malformed_recovery.2.2.2.1 Nat samplePJ [strToL "data: 1"] 1 (by decide)

/-! Lemmas for the end-of-stream flush claim: shape of the residual buffer
and of the split once a final blank line is appended. -/

theorem noNN_cons_cons (c d : Char) (t : List Char) :
    noNN (c :: d :: t) = (!(c = '\n' && d = '\n') && noNN (d :: t)) := rfl

theorem jsSplitNN_cons_cons (c d : Char) (t : List Char) :
    jsSplitNN (c :: d :: t) =
      if c = '\n' ∧ d = '\n' then [] :: jsSplitNN t
      else consHead c (jsSplitNN (d :: t)) := rfl

theorem jsSplitN_cons (c : Char) (t : List Char) :
    jsSplitN (c :: t) =
      if c = '\n' then [] :: jsSplitN t else consHead c (jsSplitN t) := rfl

theorem jsSplitNN_head_ne_nil {x r : List Char} {rs : List (List Char)}
    (h : jsSplitNN x = r :: rs) (hr : r ≠ []) : r.head? = x.head? := by
  match x with
  | [] =>
    rw [show jsSplitNN [] = [[]] from rfl] at h
    injection h with h1 h2
    exact absurd h1.symm hr
  | [c] =>
    rw [show jsSplitNN [c] = [[c]] from rfl] at h
    injection h with h1 h2
    rw [← h1]
  | c :: d :: t =>
    rw [jsSplitNN_cons_cons] at h
    split at h
    · injection h with h1 h2
      exact absurd h1.symm hr
    · obtain ⟨r', rs', hsp⟩ := exists_cons_of_ne_nil (jsSplitNN_ne_nil (d :: t))
      rw [hsp, consHead_cons] at h
      injection h with h1 h2
      rw [← h1]
      rfl

theorem noNN_of_mem_jsSplitNN :
    ∀ (s : List Char), ∀ seg ∈ jsSplitNN s, noNN seg = true := by
  intro s
  induction s using twoStepInduction with
  | h0 =>
    intro seg hseg
    simp [jsSplitNN] at hseg
    subst hseg
    rfl
  | h1 c =>
    intro seg hseg
    simp [jsSplitNN] at hseg
    subst hseg
    rfl
  | h2 c d rest ih ih2 =>
    intro seg hseg
    rw [jsSplitNN_cons_cons] at hseg
    split at hseg
    · rcases List.mem_cons.mp hseg with h | h
      · subst h
        rfl
      · exact ih seg h
    · rename_i hcd
      obtain ⟨r, rs, hsp⟩ := exists_cons_of_ne_nil (jsSplitNN_ne_nil (d :: rest))
      rw [hsp, consHead_cons] at hseg
      rcases List.mem_cons.mp hseg with h | h
      · subst h
        have hr : noNN r = true := ih2 r (by rw [hsp]; exact List.mem_cons_self ..)
        cases r with
        | nil => rfl
        | cons e r' =>
          have he : e = d := by
            have hh := jsSplitNN_head_ne_nil hsp (by simp)
            simpa using hh
          rw [he]
          rw [he] at hr
          by_cases hc1 : c = '\n'
          · by_cases hc2 : d = '\n'
            · exact absurd ⟨hc1, hc2⟩ hcd
            · simp [noNN_cons_cons, hr, hc2]
          · simp [noNN_cons_cons, hr, hc1]
      · exact ih2 seg (by rw [hsp]; exact List.mem_cons_of_mem _ h)

theorem lastSeg_mem {l : List (List Char)} (h : l ≠ []) : lastSeg l ∈ l := by
  induction l with
  | nil => exact absurd rfl h
  | cons x xs ih =>
    cases xs with
    | nil => simp [lastSeg]
    | cons y ys =>
      rw [lastSeg_cons_of_ne_nil _ (by simp)]
      exact List.mem_cons_of_mem _ (ih (by simp))

theorem noNN_lastSeg (s : List Char) : noNN (lastSeg (jsSplitNN s)) = true :=
  noNN_of_mem_jsSplitNN s _ (lastSeg_mem (jsSplitNN_ne_nil s))

theorem noN_of_mem_jsSplitN :
    ∀ (s : List Char), ∀ seg ∈ jsSplitN s, noN seg = true := by
  intro s
  induction s with
  | nil =>
    intro seg hseg
    simp [jsSplitN] at hseg
    subst hseg
    rfl
  | cons c rest ih =>
    intro seg hseg
    rw [jsSplitN_cons] at hseg
    split at hseg
    · rcases List.mem_cons.mp hseg with h | h
      · subst h
        rfl
      · exact ih seg h
    · rename_i hc
      obtain ⟨r, rs, hsp⟩ := exists_cons_of_ne_nil (jsSplitN_ne_nil rest)
      rw [hsp, consHead_cons] at hseg
      rcases List.mem_cons.mp hseg with h | h
      · subst h
        have hr : noN r = true := ih r (by rw [hsp]; exact List.mem_cons_self ..)
        simp [noN, List.all_cons] at hr ⊢
        exact ⟨hc, hr⟩
      · exact ih seg (by rw [hsp]; exact List.mem_cons_of_mem _ h)

theorem noN_lastSeg (s : List Char) : noN (lastSeg (jsSplitN s)) = true :=
  noN_of_mem_jsSplitN s _ (lastSeg_mem (jsSplitN_ne_nil s))

theorem jsSplitNN_concat_sep_of_no_nl :
    ∀ (B : List Char), noNN B = true → B.getLast? ≠ some '\n' →
      jsSplitNN (B ++ sepNN) = [B, []] := by
  intro B
  induction B using twoStepInduction with
  | h0 => intro _ _; decide
  | h1 c =>
    intro _ hlast
    have hc : c ≠ '\n' := by
      intro h
      exact hlast (by simp [h])
    have hcd : ¬(c = '\n' ∧ '\n' = '\n') := by simp [hc]
    show jsSplitNN (c :: '\n' :: ['\n']) = [[c], []]
    rw [jsSplitNN_cons_cons, if_neg hcd,
      show jsSplitNN ('\n' :: ['\n']) = [[], []] from by decide, consHead_cons]
  | h2 c d R ih ih2 =>
    intro hno hlast
    rw [noNN_cons_cons, Bool.and_eq_true] at hno
    obtain ⟨hnot, hno2⟩ := hno
    have hcd : ¬(c = '\n' ∧ d = '\n') := by
      have h' : ¬c = '\n' ∨ ¬d = '\n' := by simpa using hnot
      tauto
    have hlast2 : (d :: R).getLast? ≠ some '\n' := by
      simpa [List.getLast?_cons_cons] using hlast
    show jsSplitNN (c :: d :: (R ++ sepNN)) = [c :: d :: R, []]
    rw [jsSplitNN_cons_cons, if_neg hcd,
      show d :: (R ++ sepNN) = (d :: R) ++ sepNN from rfl, ih2 hno2 hlast2,
      consHead_cons]

theorem jsSplitNN_concat_sep_of_nl :
    ∀ (M : List Char), noNN (M ++ ['\n']) = true →
      jsSplitNN ((M ++ ['\n']) ++ sepNN) = [M, ['\n']] := by
  intro M
  induction M using twoStepInduction with
  | h0 => intro _; decide
  | h1 c =>
    intro hno
    rw [show [c] ++ ['\n'] = c :: ['\n'] from rfl, noNN_cons_cons] at hno
    have hc : ¬(c = '\n' ∧ '\n' = '\n') := by
      intro h
      simp [h.1] at hno
    show jsSplitNN (c :: '\n' :: sepNN) = [[c], ['\n']]
    rw [jsSplitNN_cons_cons, if_neg hc,
      show jsSplitNN ('\n' :: sepNN) = [[], ['\n']] from by decide, consHead_cons]
  | h2 c d R ih ih2 =>
    intro hno
    rw [show (c :: d :: R) ++ ['\n'] = c :: d :: (R ++ ['\n']) from rfl,
      noNN_cons_cons, Bool.and_eq_true] at hno
    obtain ⟨hnot, hno2⟩ := hno
    have hcd : ¬(c = '\n' ∧ d = '\n') := by
      have h' : ¬c = '\n' ∨ ¬d = '\n' := by simpa using hnot
      tauto
    show jsSplitNN (c :: d :: ((R ++ ['\n']) ++ sepNN)) = [c :: d :: R, ['\n']]
    rw [jsSplitNN_cons_cons, if_neg hcd,
      show d :: ((R ++ ['\n']) ++ sepNN) = ((d :: R) ++ ['\n']) ++ sepNN from rfl,
      ih2 hno2, consHead_cons]

theorem jsSplitN_concat_sep :
    ∀ (B : List Char), noN B = true → jsSplitN (B ++ sepNN) = [B, [], []] := by
  intro B
  induction B with
  | nil => intro _; decide
  | cons c B ih =>
    intro hno
    simp only [noN, List.all_cons, Bool.and_eq_true] at hno
    have hc : ¬c = '\n' := by simpa using hno.1
    show jsSplitN (c :: (B ++ sepNN)) = [c :: B, [], []]
    rw [jsSplitN_cons, if_neg hc, ih (by simpa [noN] using hno.2), consHead_cons]

theorem isPrefixOf_concat_of_not_mem {p s : List Char} {c : Char} (hc : c ∉ p) :
    p.isPrefixOf (s ++ [c]) = p.isPrefixOf s := by
  induction p generalizing s with
  | nil => simp [List.isPrefixOf]
  | cons a as ih =>
    cases s with
    | nil =>
      have ha : ¬a = c := fun h => hc (h ▸ List.mem_cons_self ..)
      simp [List.isPrefixOf, ha]
    | cons b bs =>
      have hc' : c ∉ as := fun h => hc (List.mem_cons_of_mem _ h)
      simp [List.isPrefixOf, ih hc']

theorem five_le_length_of_isPrefixOf {M : List Char}
    (h : strData.isPrefixOf M = true) : 5 ≤ M.length := by
  have h' : strData <+: M := List.isPrefixOf_iff_prefix.mp h
  simpa [strData] using h'.length_le

theorem jsTrim_concat_ws {s : List Char} {c : Char} (hc : isJsWS c = true) :
    jsTrim (s ++ [c]) = jsTrim s := by
  unfold jsTrim
  congr 1
  unfold trimEndL
  rw [List.reverse_append, show ([c] : List Char).reverse = [c] from rfl,
    List.singleton_append, List.dropWhile_cons, if_pos hc]

theorem utilsFlush_eq_processPart {J : Type} (pj : List Char → Option J)
    (L : Option (List Char)) (B : List Char) :
    utilsFlush pj ⟨B, L⟩ = (utilsProcessPart pj L B).2 := by
  unfold utilsFlush utilsProcessPart
  by_cases hp : strData.isPrefixOf B
  · rw [if_pos hp, if_pos hp]
    by_cases hd : some (jsTrim (B.drop 5)) = L
    · rw [if_pos hd, if_pos hd]
    · rw [if_neg hd, if_neg hd]
      cases pj (jsTrim (B.drop 5)) <;> rfl
  · rw [if_neg hp, if_neg hp]

theorem utilsProcessPart_snd_concat_nl {J : Type} (pj : List Char → Option J)
    (L : Option (List Char)) (M : List Char) :
    (utilsProcessPart pj L (M ++ ['\n'])).2 = (utilsProcessPart pj L M).2 := by
  have hpeq : strData.isPrefixOf (M ++ ['\n']) = strData.isPrefixOf M :=
    isPrefixOf_concat_of_not_mem (by decide)
  by_cases hp : strData.isPrefixOf M
  · have h5 := five_le_length_of_isPrefixOf hp
    have htrim : jsTrim ((M ++ ['\n']).drop 5) = jsTrim (M.drop 5) := by
      rw [List.drop_append_of_le_length h5, jsTrim_concat_ws (by decide)]
    unfold utilsProcessPart
    rw [hpeq, if_pos hp, if_pos hp]
    rw [htrim]
  · unfold utilsProcessPart
    rw [hpeq, if_neg hp, if_neg hp]

/-- Appending one final blank line to the utils.js input makes the in-loop
processing of the completed residual segment produce exactly the yields the
end-of-stream flush would have produced. -/
theorem utilsFlush_step_sep {J : Type} (pj : List Char → Option J)
    (st : UtilsState) (hB : noNN st.buffer = true) :
    utilsFlush pj st =
      (utilsStep pj st sepNN).2 ++ utilsFlush pj (utilsStep pj st sepNN).1 := by
  obtain ⟨B, L⟩ := st
  dsimp only at hB ⊢
  rcases List.eq_nil_or_concat' B with rfl | ⟨M, x, rfl⟩
  · have hsp : jsSplitNN (([] : List Char) ++ sepNN) = [[], []] := by decide
    simp [utilsStep, hsp, initSegs, lastSeg, utilsProcessParts, utilsProcessPart,
      utilsFlush, show strData.isPrefixOf ([] : List Char) = false from rfl]
  · by_cases hx : x = '\n'
    · subst hx
      have hsp := jsSplitNN_concat_sep_of_nl M hB
      simp only [utilsStep]
      rw [hsp, show initSegs [M, ['\n']] = [M] from rfl,
        show lastSeg [M, ['\n']] = ['\n'] from rfl,
        utilsFlush_eq_processPart, utilsProcessPart_snd_concat_nl]
      simp [utilsProcessParts, utilsFlush,
        show strData.isPrefixOf ['\n'] = false from rfl]
    · have hlast : (M ++ [x]).getLast? ≠ some '\n' := by
        rw [List.getLast?_concat]
        simp [hx]
      have hsp := jsSplitNN_concat_sep_of_no_nl (M ++ [x]) hB hlast
      simp only [utilsStep]
      rw [hsp, show initSegs [M ++ [x], []] = [M ++ [x]] from rfl,
        show lastSeg [M ++ [x], []] = [] from rfl, utilsFlush_eq_processPart]
      simp [utilsProcessParts, utilsFlush,
        show strData.isPrefixOf ([] : List Char) = false from rfl]

/-- Appending one final blank line to the api.js input makes the in-loop
event flush produce exactly the yields the end-of-stream processing would
have produced, provided the residual event has at least one data line. -/
theorem apiFlush_step_sep {J : Type} (pj : List Char → Option J) (st : ApiState)
    (hB : noN st.buffer = true)
    (hd : apiDataParts (if jsTrim st.buffer = [] then st.eventLines
            else st.eventLines ++ [jsTrim st.buffer]) ≠ []) :
    apiFlush pj st =
      (apiStep pj st sepNN).2 ++ apiFlush pj (apiStep pj st sepNN).1 := by
  obtain ⟨B, E⟩ := st
  dsimp only at hB hd ⊢
  have hsp := jsSplitN_concat_sep B hB
  simp only [apiStep]
  rw [hsp, show initSegs [B, [], []] = [B, []] from rfl,
    show lastSeg [B, [], []] = [] from rfl]
  by_cases hB0 : jsTrim B = []
  · rw [if_pos hB0] at hd
    by_cases hE : E = []
    · subst hE
      exact absurd rfl hd
    · have hline1 : apiProcessLine pj E B = ([], apiFlushEvent pj E) := by
        unfold apiProcessLine
        rw [if_pos hB0, if_neg hE]
      simp [apiProcessLines, hline1, apiProcessLine, apiFlush, hB0, hE, hd,
        show jsTrim ([] : List Char) = [] from rfl, apiFlushEvent]
  · rw [if_neg hB0] at hd
    have hline1 : apiProcessLine pj E B = (E ++ [jsTrim B], []) := by
      unfold apiProcessLine
      rw [if_neg hB0]
    have hne : E ++ [jsTrim B] ≠ [] := by simp
    have hline2 : apiProcessLine pj (E ++ [jsTrim B]) [] =
        ([], apiFlushEvent pj (E ++ [jsTrim B])) := by
      unfold apiProcessLine
      rw [show jsTrim ([] : List Char) = [] from rfl, if_pos rfl, if_neg hne]
    simp [apiProcessLines, hline1, hline2, apiFlush, hB0, hd, hne,
      show jsTrim ([] : List Char) = [] from rfl, apiFlushEvent]

/-- C6: a stream ending without a trailing blank line after its last
complete record still yields that record, processed under the same parse
and deduplication rules: appending a final blank line to any input changes
nothing in the yielded sequence — unconditionally for the utils.js parser,
and for the api.js parser whenever the residual event has at least one
`data:` line (api.js flushes the residual event at end of stream only in
that case). -/
theorem claim_C6_flush :
    (∀ (J : Type) (pj : List Char → Option J) (chunks : List (List Char)),
       utilsRun pj chunks = utilsRun pj (chunks ++ [sepNN])) ∧
    (∀ (J : Type) (pj : List Char → Option J) (chunks : List (List Char)),
       apiDataParts (apiFinalEventLines pj chunks) ≠ [] →
       apiRun pj chunks = apiRun pj (chunks ++ [sepNN])) := by
  constructor
  · intro J pj chunks
    cases chunks with
    | nil =>
      show utilsRun pj [] = utilsRun pj [sepNN]
      have hsp : jsSplitNN (([] : List Char) ++ sepNN) = [[], []] := by decide
      simp [utilsRun, utilsFeed, utilsStep, utilsInit, hsp, initSegs, lastSeg,
        utilsProcessParts, utilsProcessPart, utilsFlush,
        show strData.isPrefixOf ([] : List Char) = false from rfl]
    | cons c cs =>
      rw [show (c :: cs) ++ [sepNN] = c :: (cs ++ [sepNN]) from rfl,
        utilsRun, utilsRun, utilsFeed_eq_step_join, utilsFeed_eq_step_join,
        List.flatten_append, show ([sepNN] : List (List Char)).flatten = sepNN from by simp,
        ← List.append_assoc]
      conv_rhs => rw [utilsStep_append]
      rw [List.append_assoc]
      congr 1
      exact utilsFlush_step_sep pj _ (by
        show noNN (utilsStep pj utilsInit (c ++ cs.flatten)).1.buffer = true
        simp only [utilsStep]
        exact noNN_lastSeg _)
  · intro J pj chunks
    cases chunks with
    | nil =>
      intro _
      show apiRun pj [] = apiRun pj [sepNN]
      have hsp : jsSplitN (([] : List Char) ++ sepNN) = [[], [], []] := by decide
      simp [apiRun, apiFeed, apiStep, apiInit, hsp, initSegs, lastSeg,
        apiProcessLines, apiProcessLine, apiFlush,
        show jsTrim ([] : List Char) = [] from rfl]
    | cons c cs =>
      intro hd
      rw [apiFinalEventLines, apiFeed_eq_step_join] at hd
      rw [show (c :: cs) ++ [sepNN] = c :: (cs ++ [sepNN]) from rfl,
        apiRun, apiRun, apiFeed_eq_step_join, apiFeed_eq_step_join,
        List.flatten_append, show ([sepNN] : List (List Char)).flatten = sepNN from by simp,
        ← List.append_assoc]
      conv_rhs => rw [apiStep_append]
      rw [List.append_assoc]
      congr 1
      exact apiFlush_step_sep pj _ (by
        show noN (apiStep pj apiInit (c ++ cs.flatten)).1.buffer = true
        simp only [apiStep]
        exact noN_lastSeg _) hd

/-- Witness for C6: a concrete record without a trailing blank line yields
identically to the same record followed by one, in both variants. -/
theorem claim_C6_witness :
    utilsRun samplePJ [strToL "data: 1\n\ndata: 2"] =
        utilsRun samplePJ ([strToL "data: 1\n\ndata: 2"] ++ [sepNN]) ∧
      apiRun samplePJ [strToL "data: 1\n\ndata: 2"] =
        apiRun samplePJ ([strToL "data: 1\n\ndata: 2"] ++ [sepNN]) :=
  ⟨claim_C6_flush.1 Nat samplePJ [strToL "data: 1\n\ndata: 2"],
   claim_C6_flush.2 Nat samplePJ [strToL "data: 1\n\ndata: 2"] (by decide)⟩

end HMBDChat
